import Mathlib

/-!
Verification of the text-layout core of the bulk image generator
(`app.py`).

The layout code measures rendered text through the PIL font engine
(`draw.textbbox`, `draw.textlength` with a font loaded at a given size).
That engine lives outside the repository, so it is modelled by an
abstract `Measure` parameter: the rendered pixel width of a string at a
given integer font size.  Everything else (the word-width shrink loop,
the greedy wrap, block-height measurement, the per-field retry policy,
vertical centering and filename sanitisation) is translated directly
from `app.py`.

Widths are natural numbers (PIL's `textbbox` yields integer pixel
coordinates); block heights are rationals because the line-spacing
factors are 1.0 and 1.2.
-/

/-- Rendered pixel width of a string at a given font size.  Models the
external PIL measurement `draw.textbbox((0,0), s, font)[2] - [0]` /
`draw.textlength(s, font)` with the field's font loaded at that size. -/
abbrev Measure := Nat → String → Nat

/-- Character-level splitter behind `text.split()`: `cur` is the
reversed run of non-whitespace characters currently being read. -/
def splitChAux (cur : List Char) : List Char → List (List Char)
  | [] => if cur = [] then [] else [cur.reverse]
  | c :: cs =>
    if c.isWhitespace then
      if cur = [] then splitChAux [] cs
      else cur.reverse :: splitChAux [] cs
    else splitChAux (c :: cur) cs

/-- Python `text.split()` (no argument): split on runs of whitespace,
discarding empty tokens. -/
def splitWords (s : String) : List String :=
  (splitChAux [] s.data).map (fun l => ⟨l⟩)

/-- Character-level `' '.join`: interleave a single space between the
given character lists. -/
def joinChars : List (List Char) → List Char
  | [] => []
  | [w] => w
  | w :: x :: xs => w ++ ' ' :: joinChars (x :: xs)

/-- Python `' '.join(words)`. -/
def joinWords (ws : List String) : String :=
  ⟨joinChars (ws.map String.data)⟩

/-- Python `max(words, key=len)`: the first word of maximal character
count (`max` keeps the earlier element on ties). -/
def longestWord (ws : List String) : String :=
  ws.foldl (fun acc w => if acc.length < w.length then w else acc) (ws.headD (""))

/-- One-step truncating 10% shrink: Python `int(max_size * 0.9)`. -/
def shrinkStep (size : Nat) : Nat := size * 9 / 10

/-- The word-width shrink loop of `draw_text_wrapped` /
`calculate_text_height`, run with explicit fuel:
`while (bbox width of w) > max_width and max_size > 10:
   max_size = int(max_size * 0.9)`.
Each iteration strictly decreases `size`, so fuel `size` is enough;
`fitLoop_stable` below proves the run is fuel-independent from there. -/
def fitLoop (m : Measure) (w : String) (maxW : Nat) : Nat → Nat → Nat
  | 0, size => size
  | fuel + 1, size =>
    if maxW < m size w ∧ 10 < size then fitLoop m w maxW fuel (shrinkStep size)
    else size

/-- The resolved font size produced by the shrink loop, started at
`size` (the loop needs at most `size` iterations). -/
def fitFontSize (m : Measure) (w : String) (maxW : Nat) (size : Nat) : Nat :=
  fitLoop m w maxW size size

/-- The refined greedy wrap of `draw_text_wrapped` /
`calculate_text_height`, word-accumulator form: `cur` is
`current_line` (a list of words), the result is `final_lines` as lists
of words (the code stores each committed line as `' '.join(line)`). -/
def wrapAux (m : Measure) (size : Nat) (maxW : Nat) (cur : List String) :
    List String → List (List String)
  | [] => if cur = [] then [] else [cur]
  | w :: ws =>
    if m size (joinWords (cur ++ [w])) ≤ maxW then
      wrapAux m size maxW (cur ++ [w]) ws
    else if cur = [] then
      wrapAux m size maxW [w] ws
    else
      cur :: wrapAux m size maxW [w] ws

/-- The greedy wrap started with an empty current line. -/
def wrapWords (m : Measure) (size : Nat) (maxW : Nat) (ws : List String) :
    List (List String) :=
  wrapAux m size maxW [] ws

/-- Result of `calculate_text_height` (wrapped mode): the measured
block height, the size of the returned font object (`current_font.size`)
and the wrapped line count. -/
structure CalcResult where
  height : ℚ
  fontSize : Nat
  lineCount : Nat
deriving DecidableEq, Repr

/-- `calculate_text_height(draw, text, font_file, max_size, variation,
max_width, wrapped=True, line_spacing)` from `app.py`.  An empty word
list returns `(0, font at max_size, 0)`; otherwise the shrink loop runs
on the longest word (by character count), the greedy wrap runs at the
resolved size, and the height is `line_count * line_height` with
`line_height = current_font.size * line_spacing`. -/
def calculate_text_height (m : Measure) (text : String) (maxSize : Nat)
    (maxW : Nat) (lineSpacing : ℚ) : CalcResult :=
  let ws := splitWords text
  if ws = [] then ⟨0, maxSize, 0⟩
  else
    let size := fitFontSize m (longestWord ws) maxW maxSize
    let count := (wrapWords m size maxW ws).length
    ⟨(count : ℚ) * (size : ℚ) * lineSpacing, size, count⟩

/-- One `draw.text((x, y), line, ...)` call issued by
`draw_text_wrapped`. -/
structure DrawOp where
  x : ℚ
  y : ℚ
  line : String
deriving DecidableEq, Repr

/-- The drawing loop at the end of `draw_text_wrapped`: emit one op per
line, advancing `y` by `line_height` each time; returns the ops and the
final `y`. -/
def drawLines (x : ℚ) (lineHeight : ℚ) : ℚ → List String → List DrawOp × ℚ
  | y, [] => ([], y)
  | y, l :: ls =>
    let rest := drawLines x lineHeight (y + lineHeight) ls
    (⟨x, y, l⟩ :: rest.1, rest.2)

/-- `draw_text_wrapped(draw, text, pos, max_width, font_file, max_size,
variation, fill, line_spacing)` from `app.py`, returning the issued
draw calls and the final `y` cursor.  Empty word list: early return,
nothing drawn.  Otherwise: shrink loop on the longest word, greedy wrap
at the resolved size, then one draw per line with
`line_height = current_font.size * line_spacing`.  (The intermediate
`textwrap.wrap` result in the source is dead: the refined wrap
overwrites it.) -/
def draw_text_wrapped (m : Measure) (text : String) (pos : ℚ × ℚ)
    (maxW : Nat) (maxSize : Nat) (lineSpacing : ℚ) : List DrawOp × ℚ :=
  let ws := splitWords text
  if ws = [] then ([], pos.2)
  else
    let size := fitFontSize m (longestWord ws) maxW maxSize
    let lines := (wrapWords m size maxW ws).map joinWords
    drawLines pos.1 ((size : ℚ) * lineSpacing) pos.2 lines

/-- `MAX_WIDTH = 1700`. -/
def MAX_WIDTH : Nat := 1700

/-- `SPACING = 100`. -/
def SPACING : ℚ := 100

/-- Title measurement with its line-count retry (`app.py` lines
171-179): first attempt at size 255 (`STYLES['Title']['size']`) with
line spacing 1.0; if more than 3 lines, one retry at `255 - 20`. -/
def titleLayout (m : Measure) (text : String) : CalcResult :=
  let first := calculate_text_height m text 255 MAX_WIDTH 1
  if 3 < first.lineCount then calculate_text_height m text (255 - 20) MAX_WIDTH 1
  else first

/-- Definition measurement with its line-count retry (`app.py` lines
181-189): first attempt at size 157 with line spacing 1.2; if more than
5 lines, one retry at the fixed fallback size 130. -/
def defLayout (m : Measure) (text : String) : CalcResult :=
  let first := calculate_text_height m text 157 MAX_WIDTH (6 / 5)
  if 5 < first.lineCount then calculate_text_height m text 130 MAX_WIDTH (6 / 5)
  else first

/-- Pronunciation measurement (`app.py` line 191): a single attempt at
size 116 with line spacing 1.2, no line-count retry. -/
def pronLayout (m : Measure) (text : String) : CalcResult :=
  calculate_text_height m text 116 MAX_WIDTH (6 / 5)

/-- `total_height = h_title + SPACING + h_pron + SPACING + h_def`
(`app.py` line 194). -/
def rowTotalHeight (mT mP mD : Measure) (t p d : String) : ℚ :=
  (titleLayout mT t).height + SPACING + (pronLayout mP p).height + SPACING
    + (defLayout mD d).height

/-- `start_y = (image_height - total_height) / 2` (`app.py` line 195). -/
def start_y (imageHeight total : ℚ) : ℚ := (imageHeight - total) / 2

/-- The three `draw_text_wrapped` calls of one row (`app.py` lines
198-204): title at `start_y`, pronunciation at
`start_y + h_title + SPACING`, definition one block further; each is
drawn at the resolved font size returned by its measurement pass
(`getattr(f_x, 'size', ...)`). -/
def rowDraw (mT mP mD : Measure) (t p d : String) (imageHeight : ℚ) :
    (List DrawOp × ℚ) × (List DrawOp × ℚ) × (List DrawOp × ℚ) :=
  let sy := start_y imageHeight (rowTotalHeight mT mP mD t p d)
  let yP := sy + (titleLayout mT t).height + SPACING
  let yD := yP + (pronLayout mP p).height + SPACING
  (draw_text_wrapped mT t (2100, sy) MAX_WIDTH (titleLayout mT t).fontSize 1,
   draw_text_wrapped mP p (2100, yP) MAX_WIDTH (pronLayout mP p).fontSize (6 / 5),
   draw_text_wrapped mD d (2100, yD) MAX_WIDTH (defLayout mD d).fontSize (6 / 5))

/-- Python `str.isalnum`, modelled for code points up to U+00FF
(Basic Latin and Latin-1): ASCII letters and digits, the Latin-1
letters U+00C0-U+00FF except × (U+00D7) and ÷ (U+00F7), plus the
alphabetic/numeric signs ª µ º ² ³ ¹ ¼ ½ ¾.  Python's `isalnum` is
Unicode-aware, so é (U+00E9) counts as alphanumeric. -/
def pyIsAlnum (c : Char) : Bool :=
  c.isAlphanum ||
    (c.toNat = 0xAA || c.toNat = 0xB2 || c.toNat = 0xB3 || c.toNat = 0xB5 ||
     c.toNat = 0xB9 || c.toNat = 0xBA ||
     (0xBC ≤ c.toNat && c.toNat ≤ 0xBE) ||
     (0xC0 ≤ c.toNat && c.toNat ≤ 0xFF && c.toNat ≠ 0xD7 && c.toNat ≠ 0xF7))

/-- Python `str.strip()` (ASCII whitespace model): drop whitespace from
both ends. -/
def stripChars (l : List Char) : List Char :=
  ((l.dropWhile Char.isWhitespace).reverse.dropWhile Char.isWhitespace).reverse

/-- `safe_name = "".join([c for c in title_text if c.isalnum() or c in
(' ', '-', '_')]).strip()` (`app.py` line 213). -/
def safe_name (title : String) : String :=
  ⟨stripChars (title.data.filter
    (fun c => pyIsAlnum c || c = ' ' || c = '-' || c = '_'))⟩

/-- Monospace width model used for concrete evaluations: every
character is `size` pixels wide. -/
def mMono : Measure := fun size w => size * w.length

/-- Proportional width model: `W` is ten units wide, every other
character one unit, scaled by the font size. -/
def wMeasure : Measure := fun size w =>
  size * (w.data.map (fun c => if c = 'W' then 10 else 1)).sum

lemma shrinkStep_lt {size : Nat} (h : 0 < size) : shrinkStep size < size := by
  have h10 : (0 : Nat) < 10 := by norm_num
  rw [shrinkStep, Nat.div_lt_iff_lt_mul h10]
  exact (Nat.mul_lt_mul_left h).mpr (by norm_num)

/-- The shrink loop's result does not depend on the fuel once the fuel
is at least the starting size. -/
lemma fitLoop_stable (m : Measure) (w : String) (maxW : Nat) :
    ∀ size fuel1 fuel2, size ≤ fuel1 → size ≤ fuel2 →
      fitLoop m w maxW fuel1 size = fitLoop m w maxW fuel2 size := by
  intro size
  induction size using Nat.strong_induction_on with
  | _ size ih =>
    intro fuel1 fuel2 h1 h2
    cases fuel1 with
    | zero =>
      have hs : size = 0 := Nat.le_zero.mp h1
      subst hs
      cases fuel2 with
      | zero => rfl
      | succ f2 => simp [fitLoop]
    | succ f1 =>
      cases fuel2 with
      | zero =>
        have hs : size = 0 := Nat.le_zero.mp h2
        subst hs
        simp [fitLoop]
      | succ f2 =>
        by_cases h : maxW < m size w ∧ 10 < size
        · have hpos : 0 < size := by omega
          have hlt : shrinkStep size < size := shrinkStep_lt hpos
          simp only [fitLoop]
          rw [if_pos h, if_pos h]
          exact ih _ hlt _ _ (by omega) (by omega)
        · simp only [fitLoop]
          rw [if_neg h, if_neg h]

lemma fitLoop_eq_fitFontSize (m : Measure) (w : String) (maxW : Nat)
    {size fuel : Nat} (h : size ≤ fuel) :
    fitLoop m w maxW fuel size = fitFontSize m w maxW size :=
  fitLoop_stable m w maxW size fuel size h le_rfl

/-- Unfolding equation of the shrink loop: one truncating 10% step
while the measured word is too wide and the size is above 10. -/
lemma fitFontSize_eq (m : Measure) (w : String) (maxW : Nat) (size : Nat) :
    fitFontSize m w maxW size =
      if maxW < m size w ∧ 10 < size then fitFontSize m w maxW (shrinkStep size)
      else size := by
  cases size with
  | zero => simp [fitFontSize, fitLoop]
  | succ s =>
    show fitLoop m w maxW (s + 1) (s + 1) = _
    simp only [fitLoop]
    by_cases h : maxW < m (s + 1) w ∧ 10 < s + 1
    · rw [if_pos h, if_pos h]
      exact fitLoop_eq_fitFontSize m w maxW (by
        have := shrinkStep_lt (show 0 < s + 1 by omega)
        omega)
    · rw [if_neg h, if_neg h]

/-- The shrink loop exits only when the word fits or the size has
dropped to 10 or below. -/
lemma fitFontSize_exit (m : Measure) (w : String) (maxW : Nat) (size : Nat) :
    m (fitFontSize m w maxW size) w ≤ maxW ∨ fitFontSize m w maxW size ≤ 10 := by
  induction size using Nat.strong_induction_on with
  | _ size ih =>
    rw [fitFontSize_eq]
    by_cases h : maxW < m size w ∧ 10 < size
    · rw [if_pos h]
      exact ih _ (shrinkStep_lt (by omega))
    · rw [if_neg h]
      rcases not_and_or.mp h with h' | h'
      · exact Or.inl (le_of_not_lt h')
      · exact Or.inr (le_of_not_lt h')

/-- Restarting the shrink loop at a size it already produced is a
no-op. -/
lemma fitFontSize_idem (m : Measure) (w : String) (maxW : Nat) (size : Nat) :
    fitFontSize m w maxW (fitFontSize m w maxW size) = fitFontSize m w maxW size := by
  rw [fitFontSize_eq]
  rcases fitFontSize_exit m w maxW size with h | h
  · rw [if_neg (by simp [not_lt.mpr h])]
  · rw [if_neg (by omega)]

/-- The greedy wrap keeps every word exactly once, in order: the
committed groups flatten back to the pending current line followed by
the remaining words. -/
lemma wrapAux_flatten (m : Measure) (size maxW : Nat) :
    ∀ ws cur, (wrapAux m size maxW cur ws).flatten = cur ++ ws := by
  intro ws
  induction ws with
  | nil =>
    intro cur
    by_cases h : cur = [] <;> simp [wrapAux, h]
  | cons w ws ih =>
    intro cur
    simp only [wrapAux]
    split_ifs with h1 h2
    · rw [ih]
      simp
    · subst h2
      rw [ih]
      simp
    · simp only [List.flatten_cons, ih]
      simp

/-- The greedy wrap never commits an empty line. -/
lemma wrapAux_ne_nil (m : Measure) (size maxW : Nat) :
    ∀ ws cur g, g ∈ wrapAux m size maxW cur ws → g ≠ [] := by
  intro ws
  induction ws with
  | nil =>
    intro cur g hg
    by_cases h : cur = []
    · simp [wrapAux, h] at hg
    · simp [wrapAux, h] at hg
      subst hg
      exact h
  | cons w ws ih =>
    intro cur g hg
    simp only [wrapAux] at hg
    split_ifs at hg with h1 h2
    · exact ih _ _ hg
    · exact ih _ _ hg
    · rcases List.mem_cons.mp hg with h | h
      · subst h
        exact h2
      · exact ih _ _ h

/-- Every committed line either fits in `maxW` or is a single word;
the invariant carried on the current line is the same property. -/
lemma wrapAux_width (m : Measure) (size maxW : Nat) :
    ∀ ws cur,
      (cur ≠ [] → m size (joinWords cur) ≤ maxW ∨ cur.length = 1) →
      ∀ g ∈ wrapAux m size maxW cur ws,
        m size (joinWords g) ≤ maxW ∨ g.length = 1 := by
  intro ws
  induction ws with
  | nil =>
    intro cur hcur g hg
    by_cases h : cur = []
    · simp [wrapAux, h] at hg
    · simp [wrapAux, h] at hg
      subst hg
      exact hcur h
  | cons w ws ih =>
    intro cur hcur g hg
    simp only [wrapAux] at hg
    split_ifs at hg with h1 h2
    · exact ih _ (fun _ => Or.inl h1) g hg
    · exact ih _ (fun _ => Or.inr (by simp)) g hg
    · rcases List.mem_cons.mp hg with h | h
      · subst h
        exact hcur h2
      · exact ih _ (fun _ => Or.inr (by simp)) g h

/-- Tokens produced by the splitter are nonempty and whitespace-free. -/
lemma splitChAux_good :
    ∀ rest cur, (∀ c ∈ cur, c.isWhitespace = false) →
      ∀ l ∈ splitChAux cur rest, l ≠ [] ∧ ∀ c ∈ l, c.isWhitespace = false := by
  intro rest
  induction rest with
  | nil =>
    intro cur hcur l hl
    by_cases h : cur = []
    · simp [splitChAux, h] at hl
    · simp [splitChAux, h] at hl
      subst hl
      refine ⟨by simpa using h, ?_⟩
      intro c hc
      exact hcur c (List.mem_reverse.mp hc)
  | cons c cs ih =>
    intro cur hcur l hl
    by_cases hw : c.isWhitespace = true
    · by_cases hc : cur = []
      · simp [splitChAux, hw, hc] at hl
        exact ih [] (by simp) l hl
      · simp [splitChAux, hw, hc] at hl
        rcases hl with hl | hl
        · subst hl
          refine ⟨by simpa using hc, ?_⟩
          intro a ha
          exact hcur a (List.mem_reverse.mp ha)
        · exact ih [] (by simp) l hl
    · simp only [splitChAux, if_neg hw] at hl
      refine ih (c :: cur) ?_ l hl
      intro a ha
      rcases List.mem_cons.mp ha with h | h
      · subst h
        exact Bool.eq_false_iff.mpr hw
      · exact hcur a h

/-- Reading a whitespace-free run just moves it (reversed) into the
accumulator. -/
lemma splitChAux_run :
    ∀ (w : List Char), (∀ c ∈ w, c.isWhitespace = false) →
      ∀ cur rest, splitChAux cur (w ++ rest) = splitChAux (w.reverse ++ cur) rest := by
  intro w
  induction w with
  | nil =>
    intro _ cur rest
    simp
  | cons c w ih =>
    intro hw cur rest
    have hc : c.isWhitespace = false := hw c (by simp)
    have step : splitChAux cur ((c :: w) ++ rest) = splitChAux (c :: cur) (w ++ rest) := by
      simp only [List.cons_append, splitChAux]
      rw [if_neg (by simp [hc])]
      rfl
    rw [step, ih (fun a ha => hw a (by simp [ha])) (c :: cur) rest]
    congr 1
    simp

/-- Joining with a single space distributes over list append (both
parts nonempty). -/
lemma joinChars_append :
    ∀ a b : List (List Char), a ≠ [] → b ≠ [] →
      joinChars (a ++ b) = joinChars a ++ ' ' :: joinChars b := by
  intro a
  induction a with
  | nil =>
    intro b h
    exact absurd rfl h
  | cons x a ih =>
    intro b _ hb
    cases a with
    | nil =>
      cases b with
      | nil => exact absurd rfl hb
      | cons y bs => rfl
    | cons z a' =>
      have h1 : joinChars ((x :: z :: a') ++ b) = x ++ ' ' :: joinChars ((z :: a') ++ b) := by
        have : (x :: z :: a') ++ b = x :: z :: (a' ++ b) := by simp
        rw [this]
        rfl
      rw [h1, ih b (by simp) hb]
      simp [joinChars, List.append_assoc]

/-- A space-join of at least one word, each nonempty, is nonempty. -/
lemma joinChars_ne_nil :
    ∀ a : List (List Char), a ≠ [] → (∀ w ∈ a, w ≠ []) → joinChars a ≠ [] := by
  intro a
  cases a with
  | nil => intro h; exact absurd rfl h
  | cons w ws =>
    intro _ hw
    cases ws with
    | nil => exact hw w (by simp)
    | cons x xs =>
      show w ++ ' ' :: joinChars (x :: xs) ≠ []
      simp

/-- Space-joining the per-group joins equals space-joining the
flattened word list, provided every group is nonempty. -/
lemma joinChars_flatten :
    ∀ GS : List (List (List Char)), (∀ g ∈ GS, g ≠ []) →
      joinChars (GS.map joinChars) = joinChars GS.flatten := by
  intro GS
  induction GS with
  | nil => intro _; rfl
  | cons g gs ih =>
    intro hg
    cases gs with
    | nil => simp [joinChars]
    | cons g2 gs' =>
      have hflat : (g2 :: gs').flatten ≠ [] := by
        have : g2 ≠ [] := hg g2 (by simp)
        cases g2 with
        | nil => exact absurd rfl this
        | cons w g2' => simp
      have hmap : joinChars ((g :: g2 :: gs').map joinChars)
          = joinChars g ++ ' ' :: joinChars ((g2 :: gs').map joinChars) := by
        simp only [List.map_cons]
        rfl
      rw [hmap, ih (fun a ha => hg a (by simp [ha]))]
      rw [show (g :: g2 :: gs').flatten = g ++ (g2 :: gs').flatten by simp]
      rw [joinChars_append g ((g2 :: gs').flatten) (hg g (by simp)) hflat]

/-- Splitting a single-space join of nonempty whitespace-free words
recovers exactly those words. -/
lemma split_join :
    ∀ WS : List (List Char),
      (∀ w ∈ WS, w ≠ [] ∧ ∀ c ∈ w, c.isWhitespace = false) →
      splitChAux [] (joinChars WS) = WS := by
  intro WS
  induction WS with
  | nil => simp [splitChAux, joinChars]
  | cons w ws ih =>
    intro hws
    have hw := hws w (by simp)
    cases ws with
    | nil =>
      show splitChAux [] (joinChars [w]) = [w]
      have : joinChars [w] = w ++ [] := by simp [joinChars]
      rw [this, splitChAux_run w hw.2 [] []]
      simp [splitChAux, hw.1]
    | cons w2 ws' =>
      have hjoin : joinChars (w :: w2 :: ws') = w ++ ' ' :: joinChars (w2 :: ws') := rfl
      rw [hjoin, splitChAux_run w hw.2 [] (' ' :: joinChars (w2 :: ws'))]
      have hsp : (' ').isWhitespace = true := rfl
      have hrev : w.reverse ++ [] = w.reverse := by simp
      rw [hrev]
      have hwrev : w.reverse ≠ [] := by simpa using hw.1
      rw [show splitChAux w.reverse (' ' :: joinChars (w2 :: ws'))
            = w.reverse.reverse :: splitChAux [] (joinChars (w2 :: ws')) by
          simp [splitChAux, hsp, hwrev]]
      rw [List.reverse_reverse, ih (fun a ha => hws a (by simp [ha]))]

/-- Unfolding of `calculate_text_height` on a text with at least one
word. -/
lemma calc_of_ne (m : Measure) (text : String) (maxSize maxW : Nat) (sp : ℚ)
    (h : splitWords text ≠ []) :
    calculate_text_height m text maxSize maxW sp =
      ⟨((wrapWords m (fitFontSize m (longestWord (splitWords text)) maxW maxSize)
            maxW (splitWords text)).length : ℚ)
          * ((fitFontSize m (longestWord (splitWords text)) maxW maxSize : Nat) : ℚ) * sp,
        fitFontSize m (longestWord (splitWords text)) maxW maxSize,
        (wrapWords m (fitFontSize m (longestWord (splitWords text)) maxW maxSize)
            maxW (splitWords text)).length⟩ := by
  simp only [calculate_text_height]
  rw [if_neg h]

lemma calc_fontSize_of_ne (m : Measure) (text : String) (maxSize maxW : Nat) (sp : ℚ)
    (h : splitWords text ≠ []) :
    (calculate_text_height m text maxSize maxW sp).fontSize =
      fitFontSize m (longestWord (splitWords text)) maxW maxSize := by
  rw [calc_of_ne m text maxSize maxW sp h]

lemma calc_count_of_ne (m : Measure) (text : String) (maxSize maxW : Nat) (sp : ℚ)
    (h : splitWords text ≠ []) :
    (calculate_text_height m text maxSize maxW sp).lineCount =
      (wrapWords m (fitFontSize m (longestWord (splitWords text)) maxW maxSize)
          maxW (splitWords text)).length := by
  rw [calc_of_ne m text maxSize maxW sp h]

/-- The measured block height is always line count times font size
times line spacing. -/
lemma calc_height (m : Measure) (text : String) (maxSize maxW : Nat) (sp : ℚ) :
    (calculate_text_height m text maxSize maxW sp).height =
      ((calculate_text_height m text maxSize maxW sp).lineCount : ℚ)
        * (((calculate_text_height m text maxSize maxW sp).fontSize : Nat) : ℚ) * sp := by
  by_cases h : splitWords text = []
  · simp [calculate_text_height, h]
  · rw [calc_of_ne m text maxSize maxW sp h]

/-- Claim C1 (counterexample): the shrink loop measures only the longest word
by character count (`max(words, key=len)`), not the widest token.  With
a proportional width model, the text `"WWW iiii"` contains the token
`"WWW"`, wider than the 1000px limit at the starting size 100, yet the
loop measures `"iiii"`, exits immediately, and returns size 100, at
which `"WWW"` still exceeds the limit while the size is far above the
floor of 10. -/
theorem claim1_cex :
    ("WWW" ∈ splitWords ("WWW iiii")) ∧
    1000 < wMeasure 100 ("WWW") ∧
    (calculate_text_height wMeasure ("WWW iiii") 100 1000 1).fontSize = 100 ∧
    1000 < wMeasure
      ((calculate_text_height wMeasure ("WWW iiii") 100 1000 1).fontSize) ("WWW") ∧
    10 < (calculate_text_height wMeasure ("WWW iiii") 100 1000 1).fontSize := by
  refine ⟨by decide, by decide, by decide, by decide, by decide⟩

/-- Claim C1 (amended): the font-size fitting step shrinks by 10%
(truncating) per step based on the *longest word by character count*,
and guarantees that for this word — hence for every token whenever the
longest-by-characters token is also the widest, in particular for
single-token texts — the returned size renders it within `maxWidthPx`,
or the size has passed the floor of 10. -/
theorem claim1_thm (m : Measure) (text : String) (maxW size : Nat) :
    (fitFontSize m (longestWord (splitWords text)) maxW size =
      if maxW < m size (longestWord (splitWords text)) ∧ 10 < size then
        fitFontSize m (longestWord (splitWords text)) maxW (size * 9 / 10)
      else size) ∧
    (m (fitFontSize m (longestWord (splitWords text)) maxW size)
        (longestWord (splitWords text)) ≤ maxW ∨
      fitFontSize m (longestWord (splitWords text)) maxW size ≤ 10) :=
  ⟨by rw [fitFontSize_eq]; rfl,
   fitFontSize_exit m (longestWord (splitWords text)) maxW size⟩

/-- Claim C2: at the resolved font size, every line committed by the greedy
wrap is either within `maxWidthPx` or a single word alone on its line;
multi-word lines were accepted by the `≤ max_width` test when their
last word was added. -/
theorem claim2_thm (m : Measure) (text : String) (maxSize maxW : Nat) (sp : ℚ)
    (g : List String)
    (hg : g ∈ wrapWords m ((calculate_text_height m text maxSize maxW sp).fontSize)
        maxW (splitWords text)) :
    m ((calculate_text_height m text maxSize maxW sp).fontSize) (joinWords g) ≤ maxW
      ∨ g.length = 1 :=
  wrapAux_width m ((calculate_text_height m text maxSize maxW sp).fontSize) maxW
    (splitWords text) [] (fun h => absurd rfl h) g hg

/-- Witness for C2 at a concrete measure and text. -/
theorem claim2_witness :
    mMono ((calculate_text_height mMono ("ab cd") 100 1000 1).fontSize)
        (joinWords (["ab", "cd"])) ≤ 1000
      ∨ (["ab", "cd"] : List String).length = 1 :=
  claim2_thm mMono ("ab cd") 100 1000 1 (["ab", "cd"]) (by decide)

/-- Claim C8: one shrink step `int(size * 0.9)` strictly decreases any size
above the floor, so the loop stabilises within `size` iterations: once
the fuel reaches the starting size, adding more fuel does not change
the result — the while loop terminates. -/
theorem claim8_thm (m : Measure) (w : String) (maxW size fuel : Nat) :
    (10 < size → shrinkStep size < size) ∧
    (size ≤ fuel → fitLoop m w maxW fuel size = fitFontSize m w maxW size) :=
  ⟨fun h => shrinkStep_lt (by omega),
   fun h => fitLoop_eq_fitFontSize m w maxW h⟩

/-- Witness for C8 at a concrete measure, word and fuel. -/
theorem claim8_witness :
    shrinkStep 255 < 255 ∧
    fitLoop mMono ("aaaaaaaaaaaaaaaaaaaa") 1700 300 255 =
      fitFontSize mMono ("aaaaaaaaaaaaaaaaaaaa") 1700 255 :=
  ⟨(claim8_thm mMono ("aaaaaaaaaaaaaaaaaaaa") 1700 255 300).1 (by decide),
   (claim8_thm mMono ("aaaaaaaaaaaaaaaaaaaa") 1700 255 300).2 (by decide)⟩

/-- Claim C3: the total height is the sum of the three block heights plus two
spacing gaps, `start_y` is `(canvasHeight - totalHeight) / 2`, so
`start_y + totalHeight / 2 = canvasHeight / 2` (in exact arithmetic this
holds with no side condition, hence in particular whenever
`totalHeight ≤ canvasHeight`); `start_y` is negative exactly when the
total height exceeds the canvas height, and the title block is drawn at
the unclamped `start_y` in every case. -/
theorem claim3_thm (mT mP mD : Measure) (t p d : String) (H : ℚ) :
    rowTotalHeight mT mP mD t p d =
      (titleLayout mT t).height + SPACING + (pronLayout mP p).height + SPACING
        + (defLayout mD d).height ∧
    start_y H (rowTotalHeight mT mP mD t p d) =
      (H - rowTotalHeight mT mP mD t p d) / 2 ∧
    start_y H (rowTotalHeight mT mP mD t p d)
        + rowTotalHeight mT mP mD t p d / 2 = H / 2 ∧
    (start_y H (rowTotalHeight mT mP mD t p d) < 0 ↔
      H < rowTotalHeight mT mP mD t p d) ∧
    (rowDraw mT mP mD t p d H).1 =
      draw_text_wrapped mT t (2100, start_y H (rowTotalHeight mT mP mD t p d))
        MAX_WIDTH (titleLayout mT t).fontSize 1 := by
  refine ⟨rfl, rfl, by rw [start_y]; ring, ?_, rfl⟩
  rw [start_y]
  constructor <;> intro h <;> linarith

/-- Claim C7: a text with no words (empty or all-whitespace string) yields
zero lines and height 0 from the measurement pass, nothing drawn by the
drawing pass, and contributes only the two fixed spacing gaps to the
row's total height. -/
theorem claim7_thm (m : Measure) (maxSize maxW : Nat) (sp : ℚ) (x y : ℚ)
    (t : String) (h : splitWords t = []) :
    calculate_text_height m t maxSize maxW sp = ⟨0, maxSize, 0⟩ ∧
    draw_text_wrapped m t (x, y) maxW maxSize sp = ([], y) ∧
    ∀ (mT mD : Measure) (a d : String),
      rowTotalHeight mT m mD a t d =
        (titleLayout mT a).height + SPACING + SPACING + (defLayout mD d).height := by
  refine ⟨by simp [calculate_text_height, h], by simp [draw_text_wrapped, h], ?_⟩
  intro mT mD a d
  have hp : (pronLayout m t).height = 0 := by
    simp [pronLayout, calculate_text_height, h]
  rw [rowTotalHeight, hp]
  ring

/-- Witness for C7 at the empty string. -/
theorem claim7_witness :
    calculate_text_height mMono ("") 100 1000 1 = ⟨0, 100, 0⟩ :=
  (claim7_thm mMono 100 1000 1 0 0 ("") (by decide)).1

/-- Claim C4 (counterexample): a title of four 20-character words wraps to 4
lines at the default size 255 (monospace model), triggering the retry;
but the retry pass runs the word-width shrink loop again from
`255 - 20 = 235`, and because the longest word is still too wide there,
the resolved size is 80, not `defaultSize - 20`. -/
theorem claim4_cex :
    3 < (calculate_text_height mMono
        ("aaaaaaaaaaaaaaaaaaaa aaaaaaaaaaaaaaaaaaaa aaaaaaaaaaaaaaaaaaaa aaaaaaaaaaaaaaaaaaaa")
        255 MAX_WIDTH 1).lineCount ∧
    (titleLayout mMono
        ("aaaaaaaaaaaaaaaaaaaa aaaaaaaaaaaaaaaaaaaa aaaaaaaaaaaaaaaaaaaa aaaaaaaaaaaaaaaaaaaa")).fontSize
      = 80 ∧
    (titleLayout mMono
        ("aaaaaaaaaaaaaaaaaaaa aaaaaaaaaaaaaaaaaaaa aaaaaaaaaaaaaaaaaaaa aaaaaaaaaaaaaaaaaaaa")).fontSize
      ≠ 255 - 20 := by
  refine ⟨by decide, by decide, by decide⟩

/-- Claim C4 (amended): when the title wraps to more than 3 lines at the
default size, the layout retries exactly once with starting size
`maxFontSize - 20 = 235` and uses that second measurement for the final
render; the resolved size of the retry is the word-width shrink applied
from 235, which equals 235 exactly when the longest word already fits
at 235.  No further line-count-triggered shrinking occurs. -/
theorem claim4_thm (m : Measure) (t : String)
    (h : 3 < (calculate_text_height m t 255 MAX_WIDTH 1).lineCount) :
    titleLayout m t = calculate_text_height m t (255 - 20) MAX_WIDTH 1 ∧
    (titleLayout m t).fontSize =
      fitFontSize m (longestWord (splitWords t)) MAX_WIDTH (255 - 20) ∧
    (m (255 - 20) (longestWord (splitWords t)) ≤ MAX_WIDTH →
      (titleLayout m t).fontSize = 255 - 20) := by
  have hne : splitWords t ≠ [] := by
    intro he
    simp [calculate_text_height, he] at h
  have h1 : titleLayout m t = calculate_text_height m t (255 - 20) MAX_WIDTH 1 := by
    rw [titleLayout]
    simp only [if_pos h]
  refine ⟨h1, ?_, ?_⟩
  · rw [h1]
    exact calc_fontSize_of_ne m t (255 - 20) MAX_WIDTH 1 hne
  · intro hfit
    rw [h1, calc_fontSize_of_ne m t (255 - 20) MAX_WIDTH 1 hne, fitFontSize_eq]
    rw [if_neg (by simp [not_lt.mpr hfit])]

/-- Witness for C4: four 6-character words wrap to 4 lines at size 255
and the longest word fits at 235, so the resolved retry size is 235. -/
theorem claim4_witness :
    (titleLayout mMono ("aaaaaa aaaaaa aaaaaa aaaaaa")).fontSize = 255 - 20 :=
  (claim4_thm mMono ("aaaaaa aaaaaa aaaaaa aaaaaa") (by decide)).2.2 (by decide)

/-- Claim C5 (counterexample): a definition of six 20-character words wraps
to 6 lines at the default size 157 (monospace model), triggering the
retry at the fixed fallback 130; but the retry runs the word-width
shrink loop again from 130, and because the longest word is still too
wide there, the resolved size is 84, not 130. -/
theorem claim5_cex :
    5 < (calculate_text_height mMono
        ("aaaaaaaaaaaaaaaaaaaa aaaaaaaaaaaaaaaaaaaa aaaaaaaaaaaaaaaaaaaa aaaaaaaaaaaaaaaaaaaa aaaaaaaaaaaaaaaaaaaa aaaaaaaaaaaaaaaaaaaa")
        157 MAX_WIDTH (6 / 5)).lineCount ∧
    (defLayout mMono
        ("aaaaaaaaaaaaaaaaaaaa aaaaaaaaaaaaaaaaaaaa aaaaaaaaaaaaaaaaaaaa aaaaaaaaaaaaaaaaaaaa aaaaaaaaaaaaaaaaaaaa aaaaaaaaaaaaaaaaaaaa")).fontSize
      = 84 ∧
    (defLayout mMono
        ("aaaaaaaaaaaaaaaaaaaa aaaaaaaaaaaaaaaaaaaa aaaaaaaaaaaaaaaaaaaa aaaaaaaaaaaaaaaaaaaa aaaaaaaaaaaaaaaaaaaa aaaaaaaaaaaaaaaaaaaa")).fontSize
      ≠ 130 := by
  refine ⟨by decide, by decide, by decide⟩

/-- Claim C5 (amended): when the definition wraps to more than 5 lines at the
default size, the layout retries exactly once with the fixed absolute
starting size 130 (not a percentage reduction) and uses that second
measurement; the resolved size of the retry is the word-width shrink
applied from 130, which equals 130 exactly when the longest word
already fits at 130.  The pronunciation field has no line-count retry:
its layout is always the single measurement at its configured size. -/
theorem claim5_thm (m : Measure) (t : String)
    (h : 5 < (calculate_text_height m t 157 MAX_WIDTH (6 / 5)).lineCount) :
    defLayout m t = calculate_text_height m t 130 MAX_WIDTH (6 / 5) ∧
    (defLayout m t).fontSize =
      fitFontSize m (longestWord (splitWords t)) MAX_WIDTH 130 ∧
    (m 130 (longestWord (splitWords t)) ≤ MAX_WIDTH →
      (defLayout m t).fontSize = 130) ∧
    ∀ (mp : Measure) (p : String),
      pronLayout mp p = calculate_text_height mp p 116 MAX_WIDTH (6 / 5) := by
  have hne : splitWords t ≠ [] := by
    intro he
    simp [calculate_text_height, he] at h
  have h1 : defLayout m t = calculate_text_height m t 130 MAX_WIDTH (6 / 5) := by
    rw [defLayout]
    simp only [if_pos h]
  refine ⟨h1, ?_, ?_, fun mp p => rfl⟩
  · rw [h1]
    exact calc_fontSize_of_ne m t 130 MAX_WIDTH (6 / 5) hne
  · intro hfit
    rw [h1, calc_fontSize_of_ne m t 130 MAX_WIDTH (6 / 5) hne, fitFontSize_eq]
    rw [if_neg (by simp [not_lt.mpr hfit])]

/-- Witness for C5: six 10-character words wrap to 6 lines at size 157
and the longest word fits at 130, so the resolved retry size is 130. -/
theorem claim5_witness :
    (defLayout mMono
        ("aaaaaaaaaa aaaaaaaaaa aaaaaaaaaa aaaaaaaaaa aaaaaaaaaa aaaaaaaaaa")).fontSize
      = 130 :=
  (claim5_thm mMono
      ("aaaaaaaaaa aaaaaaaaaa aaaaaaaaaa aaaaaaaaaa aaaaaaaaaa aaaaaaaaaa")
      (by decide)).2.2.1 (by decide)

/-- Characters surviving `stripChars` come from the input list. -/
lemma mem_stripChars {c : Char} {l : List Char} (h : c ∈ stripChars l) : c ∈ l := by
  rw [stripChars] at h
  have h1 := List.mem_reverse.mp h
  have h2 := (List.dropWhile_sublist Char.isWhitespace).subset h1
  have h3 := List.mem_reverse.mp h2
  exact (List.dropWhile_sublist Char.isWhitespace).subset h3

/-- Claim C6 (counterexample): Python's `isalnum` is Unicode-aware, so the
`é` of `"Café/Bar: #1"` is kept and the sanitised name is not
`"CafBar 1"`. -/
theorem claim6_cex : safe_name ("Café/Bar: #1") ≠ "CafBar 1" := by decide

/-- Claim C6 (amended): the output filename is the title with every character
removed that is not Unicode-alphanumeric (Python `isalnum`), space,
hyphen or underscore, then stripped of surrounding whitespace; the
title `"Café/Bar: #1"` sanitises to `"CaféBar 1"` (the é is
alphanumeric and kept). -/
theorem claim6_thm (t : String) :
    safe_name ("Café/Bar: #1") = "CaféBar 1" ∧
    safe_name t =
      ⟨stripChars (t.data.filter
        (fun c => pyIsAlnum c || c = ' ' || c = '-' || c = '_'))⟩ ∧
    (safe_name t).data.all
      (fun c => pyIsAlnum c || c = ' ' || c = '-' || c = '_') = true := by
  refine ⟨by decide, rfl, ?_⟩
  rw [List.all_eq_true]
  intro c hc
  have hmem : c ∈ t.data.filter
      (fun c => pyIsAlnum c || c = ' ' || c = '-' || c = '_') :=
    mem_stripChars hc
  exact (List.mem_filter.mp hmem).2

/-- Tokens of `splitWords` are nonempty and whitespace-free (string
level). -/
lemma splitWords_good (t : String) :
    ∀ w ∈ splitWords t, w.data ≠ [] ∧ ∀ c ∈ w.data, c.isWhitespace = false := by
  intro w hw
  simp only [splitWords, List.mem_map] at hw
  obtain ⟨l, hl, rfl⟩ := hw
  exact splitChAux_good t.data [] (by simp) l hl

/-- Claim C9: the greedy wrap emits no empty line, and joining the output
lines with single spaces and re-splitting on whitespace recovers the
input's word sequence exactly — every word once, in order. -/
theorem claim9_thm (m : Measure) (size maxW : Nat) (t : String) :
    ("" ∉ (wrapWords m size maxW (splitWords t)).map joinWords) ∧
    splitWords (joinWords ((wrapWords m size maxW (splitWords t)).map joinWords)) =
      splitWords t := by
  have hflat : (wrapWords m size maxW (splitWords t)).flatten = splitWords t := by
    rw [wrapWords, wrapAux_flatten]
    simp
  have hGne : ∀ g ∈ wrapWords m size maxW (splitWords t), g ≠ [] :=
    fun g h => wrapAux_ne_nil m size maxW (splitWords t) [] g h
  have hwords := splitWords_good t
  have hmemdata : ∀ g ∈ wrapWords m size maxW (splitWords t),
      ∀ w ∈ g, w.data ≠ [] := by
    intro g hg w hw
    have : w ∈ (wrapWords m size maxW (splitWords t)).flatten :=
      List.mem_flatten.mpr ⟨g, hg, hw⟩
    rw [hflat] at this
    exact (hwords w this).1
  have hdata : (joinWords ((wrapWords m size maxW (splitWords t)).map joinWords)).data
      = joinChars ((splitWords t).map String.data) := by
    show joinChars (((wrapWords m size maxW (splitWords t)).map joinWords).map String.data) = _
    rw [List.map_map]
    have hcomp : (String.data ∘ joinWords) =
        (joinChars ∘ fun (g : List String) => g.map String.data) := rfl
    rw [hcomp, ← List.map_map]
    rw [joinChars_flatten ((wrapWords m size maxW (splitWords t)).map
        (fun g => g.map String.data))
      (by
        intro g hgm
        obtain ⟨g0, hg0, rfl⟩ := List.mem_map.mp hgm
        simpa using hGne g0 hg0)]
    rw [show ((wrapWords m size maxW (splitWords t)).map
          (fun g => g.map String.data)).flatten
        = ((wrapWords m size maxW (splitWords t)).flatten).map String.data from
      (List.map_flatten String.data (wrapWords m size maxW (splitWords t))).symm]
    rw [hflat]
  constructor
  · intro hmem
    obtain ⟨g, hgm, hge⟩ := List.mem_map.mp hmem
    have hne : joinChars (g.map String.data) ≠ [] := by
      apply joinChars_ne_nil
      · simpa using hGne g hgm
      · intro w hw
        obtain ⟨w0, hw0, rfl⟩ := List.mem_map.mp hw
        exact hmemdata g hgm w0 hw0
    exact hne (congrArg String.data hge)
  · show ((splitChAux []
        (joinWords ((wrapWords m size maxW (splitWords t)).map joinWords)).data).map
        (fun l => (⟨l⟩ : String))) = splitWords t
    rw [hdata]
    rw [split_join ((splitWords t).map String.data)
      (by
        intro w hw
        obtain ⟨w0, hw0, rfl⟩ := List.mem_map.mp hw
        exact hwords w0 hw0)]
    rw [List.map_map]
    have hid : ((fun l => (⟨l⟩ : String)) ∘ String.data) = id := by
      funext s
      cases s
      rfl
    rw [hid, List.map_id]

/-- The drawing loop emits exactly the given lines (in order), one op
per line, and leaves the `y` cursor advanced by one line height per
line. -/
lemma drawLines_spec (x lineHeight : ℚ) :
    ∀ (ls : List String) (y : ℚ),
      (drawLines x lineHeight y ls).1.map DrawOp.line = ls ∧
      (drawLines x lineHeight y ls).1.length = ls.length ∧
      (drawLines x lineHeight y ls).2 = y + (ls.length : ℚ) * lineHeight := by
  intro ls
  induction ls with
  | nil =>
    intro y
    refine ⟨rfl, rfl, by simp [drawLines]⟩
  | cons l ls ih =>
    intro y
    simp only [drawLines]
    refine ⟨by simp [(ih (y + lineHeight)).1], by simp [(ih (y + lineHeight)).2.1], ?_⟩
    rw [(ih (y + lineHeight)).2.2]
    simp only [List.length_cons]
    push_cast
    ring

/-- Claim C10: drawing at the resolved size returned by the measurement pass
re-derives the same font size (the shrink loop is a no-op at its own
fixpoint) and the same wrapped lines, and advances the `y` cursor by
exactly the measured block height `lineCount * size * lineSpacing`. -/
theorem claim10_thm (m : Measure) (text : String) (maxSize maxW : Nat) (sp : ℚ)
    (x y : ℚ) :
    (draw_text_wrapped m text (x, y) maxW
        (calculate_text_height m text maxSize maxW sp).fontSize sp).1.map DrawOp.line =
      (wrapWords m (calculate_text_height m text maxSize maxW sp).fontSize maxW
        (splitWords text)).map joinWords ∧
    (draw_text_wrapped m text (x, y) maxW
        (calculate_text_height m text maxSize maxW sp).fontSize sp).1.length =
      (calculate_text_height m text maxSize maxW sp).lineCount ∧
    (draw_text_wrapped m text (x, y) maxW
        (calculate_text_height m text maxSize maxW sp).fontSize sp).2 =
      y + (calculate_text_height m text maxSize maxW sp).height := by
  by_cases h : splitWords text = []
  · have hw : wrapWords m (calculate_text_height m text maxSize maxW sp).fontSize maxW
        (splitWords text) = [] := by
      rw [h]
      rfl
    have hc : calculate_text_height m text maxSize maxW sp = ⟨0, maxSize, 0⟩ := by
      simp [calculate_text_height, h]
    have hd : draw_text_wrapped m text (x, y) maxW
        (calculate_text_height m text maxSize maxW sp).fontSize sp = ([], y) := by
      simp [draw_text_wrapped, h]
    rw [hd, hw, hc]
    refine ⟨rfl, rfl, by simp⟩
  · have hfs : (calculate_text_height m text maxSize maxW sp).fontSize =
        fitFontSize m (longestWord (splitWords text)) maxW maxSize :=
      calc_fontSize_of_ne m text maxSize maxW sp h
    have hidem : fitFontSize m (longestWord (splitWords text)) maxW
        ((calculate_text_height m text maxSize maxW sp).fontSize) =
        (calculate_text_height m text maxSize maxW sp).fontSize := by
      rw [hfs]
      exact fitFontSize_idem m (longestWord (splitWords text)) maxW maxSize
    have hd : draw_text_wrapped m text (x, y) maxW
        (calculate_text_height m text maxSize maxW sp).fontSize sp =
        drawLines x
          (((calculate_text_height m text maxSize maxW sp).fontSize : ℚ) * sp) y
          ((wrapWords m (calculate_text_height m text maxSize maxW sp).fontSize maxW
            (splitWords text)).map joinWords) := by
      simp only [draw_text_wrapped]
      rw [if_neg h, hidem]
    have hcount : (calculate_text_height m text maxSize maxW sp).lineCount =
        (wrapWords m (calculate_text_height m text maxSize maxW sp).fontSize maxW
          (splitWords text)).length := by
      rw [calc_count_of_ne m text maxSize maxW sp h, hfs]
    have hspec := drawLines_spec x
      (((calculate_text_height m text maxSize maxW sp).fontSize : ℚ) * sp)
      ((wrapWords m (calculate_text_height m text maxSize maxW sp).fontSize maxW
        (splitWords text)).map joinWords) y
    refine ⟨by rw [hd]; exact hspec.1, ?_, ?_⟩
    · rw [hd, hspec.2.1, List.length_map, hcount]
    · rw [hd, hspec.2.2, calc_height m text maxSize maxW sp, hcount, List.length_map]
      ring

example : splitWords ("a  b") = ["a", "b"] := by decide
example : splitWords ("") = [] := by decide
example : longestWord (["WWW", "iiii"]) = "iiii" := by decide
example : joinWords (["ab", "cd"]) = "ab cd" := by decide
example : fitFontSize mMono ("aaaaaaaaaaaaaaaaaaaa") 1700 255 = 78 := by decide
example : fitFontSize mMono ("aaaaaaaaaaaaaaaaaaaa") 1700 235 = 80 := by decide
example : fitFontSize mMono ("aaaaaaaaaaaaaaaaaaaa") 1700 157 = 81 := by decide
example : fitFontSize mMono ("aaaaaaaaaaaaaaaaaaaa") 1700 130 = 84 := by decide
example : fitFontSize wMeasure ("iiii") 1000 100 = 100 := by decide
example : wrapWords mMono 100 1000 (["ab", "cd"]) = [["ab", "cd"]] := by decide
example : safe_name ("Café/Bar: #1") = "CaféBar 1" := by decide
